import Mathlib

/-!
Verification development for the diva update-content checker.

The Go sources are shallowly embedded: every fallible external operation
(file hashing, manifest parsing, directory listing, archive fetching, the
bspatch process, temporary-directory creation) is an observation drawn from
an explicit environment record, and each checker is translated into a pure
Lean function over that environment.  Worker-pool loops whose items are
independent are translated as left-to-right folds over the item list; this
is the deterministic schedule in which every produced item is consumed, and
it agrees with every Go schedule on the observables stated below (error
presence, recorded outcomes per item, failure sets).  Go map iteration,
whose order is unspecified, is modelled by first-insertion order.
-/

set_option autoImplicit false

namespace Diva

/-- Model of `filepath.Join` for the path shapes used by the checkers. -/
def joinP (a b : String) : String := a ++ "/" ++ b

/-- Helper for `splitDash`: splits a character list at every dash, keeping the
(reversed) accumulator for the current field. -/
def splitDashAux : List Char → List Char → List (List Char)
  | [], acc => [acc.reverse]
  | c :: cs, acc =>
    if c = '-' then acc.reverse :: splitDashAux cs []
    else splitDashAux cs (c :: acc)

/-- Model of Go `strings.Split(s, "-")` (kernel-computable, unlike
`String.splitOn`): splits `s` at every dash, never dropping empty fields. -/
def splitDash (s : String) : List String :=
  (splitDashAux s.data []).map (fun l => String.mk l)

/-- Digit accumulator for `atoiNat`. -/
def atoiNatAux : List Char → Nat → Option Nat
  | [], acc => some acc
  | c :: cs, acc =>
    if 48 ≤ c.toNat ∧ c.toNat ≤ 57 then atoiNatAux cs (acc * 10 + (c.toNat - 48))
    else none

/-- Model of Go `strconv.Atoi` restricted to the non-negative values the
checkers use (kernel-computable, unlike `String.toNat?`): `none` on the empty
string or any non-digit character. -/
def atoiNat (s : String) : Option Nat :=
  if s.data.isEmpty then none else atoiNatAux s.data 0

/-- Model of Go `strings.Trim(s, "\n")`: drops leading and trailing newline
characters. -/
def trimNewline (s : String) : String :=
  String.mk (((s.data.dropWhile (fun c => c = '\n')).reverse.dropWhile
    (fun c => c = '\n')).reverse)

namespace swupd

/-- Embedding of `swupd.File`: one row of a manifest.  `Hash` is the string
rendering of the interned content hash (`Hash.String()`); swupd interns hash
strings, so hash equality coincides with string equality.  `present` is the
result of the `Present()` status test (the entry carries retrievable bytes,
as opposed to a deleted/ghost marker). -/
structure File where
  Name : String
  Version : Nat
  Hash : String
  present : Bool
deriving DecidableEq, Repr

/-- Embedding of `f.Present()`. -/
def File.Present (f : File) : Bool := f.present

/-- Embedding of the manifest header fields used by the checkers. -/
structure Header where
  Version : Nat
deriving DecidableEq, Repr

/-- Embedding of `swupd.Manifest`: name, header and file entries. -/
structure Manifest where
  Name : String
  Header : Header
  Files : List File
deriving DecidableEq, Repr

end swupd

/-- Embedding of the `config.Config` fields the checkers read. -/
structure Config where
  UpstreamURL : String
  CacheLocation : String
deriving DecidableEq, Repr

/-- Environment of external observations for one checker run.  Each field
models one external collaborator of the Go code; `none`/`false` is the
operation failing with an error.

* `hashcalc p` — `swupd.Hashcalc(p)`: content hash of the file at path `p`,
  `none` when the file cannot be read.
* `parseManifest p` — `swupd.ParseManifestFile(p)`.
* `readDir p` — `ioutil.ReadDir(p)`, the (sorted) list of entry names.
* `tarExtractOK url target` — success of `helpers.TarExtractURL(url, target)`.
* `bspatchOK old new patch` — success of the `bspatch old new patch` process.
* `tempDir pat` — `ioutil.TempDir("", pat)`: the directory created for the
  name pattern `pat`, `none` when creation fails. -/
structure Env where
  hashcalc : String → Option String
  parseManifest : String → Option swupd.Manifest
  readDir : String → Option (List String)
  tarExtractOK : String → String → Bool
  bspatchOK : String → String → String → Bool
  tempDir : String → Option String

/-- Aggregated observable result of one verification stage: the
`r.Ok(pass, description)` outcomes in recording order, the `r.Diagnostic`
texts, and the stage error (the Go function return value). -/
structure Stage where
  oks : List (Bool × String)
  diags : List String
  err : Option String
deriving DecidableEq, Repr

/-- Stage with no recorded outcome, diagnostic or error. -/
def Stage.empty : Stage := ⟨[], [], none⟩

/-- Sequencing of stage observations: outcomes and diagnostics concatenate,
the first error is kept (the later one is drained unread from the channel). -/
def Stage.seq (s t : Stage) : Stage :=
  ⟨s.oks ++ t.oks, s.diags ++ t.diags, match s.err with | some e => some e | none => t.err⟩

/-- Result of one pack verification call: failure descriptions, the error
return, and the scratch directories the call created but never removed. -/
structure PackResult where
  fails : List String
  err : Option String
  leftover : List String
deriving DecidableEq, Repr

namespace results

/-- Embedding of `diva.PFS` (diva/results.go): pass/fail/skip status of one
test result. -/
inductive PFS where
  | Pass
  | Fail
  | Skip
deriving DecidableEq, Repr

/-- Embedding of `diva.Result` (diva/results.go). -/
structure Result where
  Name : String
  Description : String
  Status : PFS
  Output : String
deriving DecidableEq, Repr

/-- Embedding of `diva.Results` (diva/results.go): counters plus the recorded
tests.  Go errors are modelled as `Option String` (`none` is a nil error, and
`e.Error()` is the carried string). -/
structure Results where
  Name : String
  Description : String
  Passed : Nat
  Failed : Nat
  Skipped : Nat
  Total : Nat
  Tests : List Result
deriving DecidableEq, Repr

/-- Embedding of `Results.Add` (diva/results.go lines 88-117): increments
`Total`, then exactly one of `Skipped`/`Passed`/`Failed` according to the
`skipped` and `err` arguments, and appends the corresponding `Result`. -/
def Results.Add (r : Results) (name description : String) (err : Option String)
    (skipped : Bool) : Results :=
  let total := r.Total + 1
  if skipped then
    let output := "skipped: " ++ (match err with | some e => e | none => "")
    { r with
      Total := total
      Skipped := r.Skipped + 1
      Tests := r.Tests ++ [⟨name, description, PFS.Skip, output⟩] }
  else
    match err with
    | none =>
      { r with
        Total := total
        Passed := r.Passed + 1
        Tests := r.Tests ++ [⟨name, description, PFS.Pass, ""⟩] }
    | some e =>
      { r with
        Total := total
        Failed := r.Failed + 1
        Tests := r.Tests ++ [⟨name, description, PFS.Fail, e⟩] }

/-- Arguments of one `Results.Add` call. -/
structure AddArgs where
  name : String
  description : String
  err : Option String
  skipped : Bool
deriving DecidableEq, Repr

/-- Folds a sequence of `Add` calls over a `Results` value. -/
def applyAdds (r : Results) (l : List AddArgs) : Results :=
  l.foldl (fun acc a => acc.Add a.name a.description a.err a.skipped) r

/-- Zero value of `Results` as produced by `&diva.Results{Name: ...}`. -/
def zeroResults (name : String) : Results := ⟨name, "", 0, 0, 0, 0, []⟩

end results

namespace UC

/-!
Embedding of the updatecontent checker (src/unnamed/part_000, first file):
the variant whose outcomes are recorded on a `diva.Results` via `r.Ok` and
`r.Diagnostic`.
-/

/-- Path of the MoM manifest: `<cache>/update/<version>/Manifest.MoM`. -/
def momPath (c : Config) (version : Nat) : String :=
  joinP (joinP (joinP c.CacheLocation "update") (toString version)) "Manifest.MoM"

/-- Path of a bundle manifest referenced by a MoM entry:
`<cache>/update/<entry version>/Manifest.<entry name>`. -/
def manPath (c : Config) (f : swupd.File) : String :=
  joinP (joinP (joinP c.CacheLocation "update") (toString f.Version))
    ("Manifest." ++ f.Name)

/-- Path of the blob recorded by a file entry:
`<cache>/update/<entry version>/files/<entry hash>`. -/
def blobPath (cacheLoc : String) (f : swupd.File) : String :=
  joinP (joinP (joinP (joinP cacheLoc "update") (toString f.Version)) "files") f.Hash

/-- Loop body of `CheckManifestHashes` (part_000 lines 41-53): for each MoM
entry at or above the floor, hash the bundle manifest and record
`r.Ok(hash == entry hash, ...)`; a `Hashcalc` error aborts the loop with that
error. -/
def CheckManifestHashesLoop (env : Env) (c : Config) (minVer : Nat) :
    List swupd.File → List (Bool × String) × Option String
  | [] => ([], none)
  | f :: rest =>
    if f.Version < minVer then CheckManifestHashesLoop env c minVer rest
    else
      match env.hashcalc (manPath c f) with
      | none => ([], some ("Hashcalc " ++ manPath c f))
      | some hash =>
        let res := CheckManifestHashesLoop env c minVer rest
        ((hash == f.Hash, "Manifest." ++ f.Name ++ " hash matches hash in MoM") :: res.1,
          res.2)

/-- Embedding of `CheckManifestHashes` (part_000 lines 34-56): parse the MoM
for `version`, then record one outcome per entry at or above `minVer`. -/
def CheckManifestHashes (env : Env) (c : Config) (version minVer : Nat) :
    List (Bool × String) × Option String :=
  match env.parseManifest (momPath c version) with
  | none => ([], some ("ParseManifestFile " ++ momPath c version))
  | some MoM => CheckManifestHashesLoop env c minVer MoM.Files

/-- Loop of `checkBundleFileHashes` (part_000 lines 58-118), determinized to
manifest order (the pool has one worker per file, so every file is processed;
a `Hashcalc` error stops only the worker that saw it).  Mismatching present
entries at or above the floor are collected on the `fails` channel by name;
the first `Hashcalc` error becomes the returned error. -/
def checkBundleFileHashesLoop (env : Env) (cacheLoc : String) (minVer : Nat) :
    List swupd.File → List String × Option String
  | [] => ([], none)
  | f :: rest =>
    if !f.Present then checkBundleFileHashesLoop env cacheLoc minVer rest
    else if f.Version < minVer then checkBundleFileHashesLoop env cacheLoc minVer rest
    else
      match env.hashcalc (blobPath cacheLoc f) with
      | none =>
        let res := checkBundleFileHashesLoop env cacheLoc minVer rest
        (res.1, some ("Hashcalc " ++ blobPath cacheLoc f))
      | some hash =>
        let res := checkBundleFileHashesLoop env cacheLoc minVer rest
        (if hash == f.Hash then res.1 else f.Name :: res.1, res.2)

/-- Embedding of `checkBundleFileHashes` (part_000 lines 58-118). -/
def checkBundleFileHashes (env : Env) (cacheLoc : String) (m : swupd.Manifest)
    (minVer : Nat) : List String × Option String :=
  checkBundleFileHashesLoop env cacheLoc minVer m.Files

/-- Worker body of `CheckFileHashes` (part_000 lines 136-159) for one MoM
entry: parse the bundle manifest, check its blobs, and either forward the
error or record the aggregate `r.Ok` outcome plus a diagnostic listing the
mismatched names. -/
def CheckFileHashesBundle (env : Env) (c : Config) (minVer : Nat)
    (b : swupd.File) : Stage :=
  if b.Version < minVer then Stage.empty
  else
    match env.parseManifest (manPath c b) with
    | none => ⟨[], [], some ("ParseManifestFile " ++ manPath c b)⟩
    | some m =>
      match checkBundleFileHashes env c.CacheLocation m minVer with
      | (_, some e) => ⟨[], [], some e⟩
      | (failures, none) =>
        ⟨[(failures.isEmpty, "file hashes for " ++ m.Name ++ " bundle match hashes in manifest")],
          if failures.isEmpty then []
          else ["mismatched hashes:\n" ++ String.intercalate "\n" failures],
          none⟩

/-- Producer loop of `CheckFileHashes` (part_000 lines 162-170).  The Go loop
sends each MoM entry twice: once unconditionally (line 163) and once through
the `select` (line 165), so in the error-free schedule every bundle is
verified twice. -/
def CheckFileHashesLoop (env : Env) (c : Config) (minVer : Nat) :
    List swupd.File → Stage
  | [] => Stage.empty
  | b :: rest =>
    (CheckFileHashesBundle env c minVer b).seq
      ((CheckFileHashesBundle env c minVer b).seq
        (CheckFileHashesLoop env c minVer rest))

/-- Embedding of `CheckFileHashes` (part_000 lines 122-184). -/
def CheckFileHashes (env : Env) (c : Config) (version minVer : Nat) : Stage :=
  match env.parseManifest (momPath c version) with
  | none => ⟨[], [], some ("ParseManifestFile " ++ momPath c version)⟩
  | some MoM => CheckFileHashesLoop env c minVer MoM.Files

/-- Loop of `checkBundleFileHashesPack` (part_000 lines 186-232), determinized
to manifest order (the four workers continue past errors, so every file is
processed; only the multiset of collected errors is observable).  For each
entry at or above the floor that is present, a `Hashcalc` error or a hash
mismatch contributes one error string. -/
def checkBundleFileHashesPackLoop (env : Env) (filesLoc mName : String)
    (minVer : Nat) : List swupd.File → List String
  | [] => []
  | f :: rest =>
    if f.Version < minVer then checkBundleFileHashesPackLoop env filesLoc mName minVer rest
    else if !f.Present then checkBundleFileHashesPackLoop env filesLoc mName minVer rest
    else
      match env.hashcalc (joinP filesLoc f.Hash) with
      | none =>
        ("Hashcalc " ++ joinP filesLoc f.Hash) ::
          checkBundleFileHashesPackLoop env filesLoc mName minVer rest
      | some hash =>
        if hash == f.Hash then checkBundleFileHashesPackLoop env filesLoc mName minVer rest
        else
          (joinP filesLoc f.Hash ++ " hash did not match hash listed in " ++ mName ++
              " for " ++ f.Name) ::
            checkBundleFileHashesPackLoop env filesLoc mName minVer rest

/-- Embedding of `checkBundleFileHashesPack` (part_000 lines 186-232). -/
def checkBundleFileHashesPack (env : Env) (filesLoc : String) (m : swupd.Manifest)
    (minVer : Nat) : List String :=
  checkBundleFileHashesPackLoop env filesLoc m.Name minVer m.Files

/-- Embedding of `CheckZeroPack` (part_000 lines 235-256): create a scratch
directory, fetch and extract `pack-<bundle>-from-0.tar`, then hash-check the
staged files with floor 0.  The deferred `os.RemoveAll(tmpDir)` is
unconditional, so no scratch directory is ever left behind. -/
def CheckZeroPack (env : Env) (c : Config) (m : swupd.Manifest) : PackResult :=
  match env.tempDir ("check-zero-pack-" ++ m.Name ++ "-" ++ toString m.Header.Version ++ "-") with
  | none => ⟨[], some "TempDir", []⟩
  | some tmpDir =>
    let url := c.UpstreamURL ++ "/update/" ++ toString m.Header.Version ++
      "/pack-" ++ m.Name ++ "-from-0.tar"
    if env.tarExtractOK url (joinP tmpDir (toString m.Header.Version)) then
      ⟨checkBundleFileHashesPack env (joinP tmpDir "staged") m 0, none, []⟩
    else ⟨[], some ("TarExtractURL " ++ url), []⟩

/-- Embedding of `checkSingleDelta` (part_000 lines 258-276): run
`bspatch fromFile fromFile.test deltaFile`, hash the output, and compare the
hash string against the expected target hash. -/
def checkSingleDelta (env : Env) (deltaFile fromFile expHash : String) : Option String :=
  let testFile := fromFile ++ ".test"
  if !env.bspatchOK fromFile testFile deltaFile then
    some ("bspatch " ++ fromFile ++ " " ++ testFile ++ " " ++ deltaFile)
  else
    match env.hashcalc testFile with
    | none => some ("Hashcalc " ++ testFile)
    | some hash =>
      if hash == expHash then none
      else
        some ("delta " ++ deltaFile ++ " produced incorrect hash\nexpected: " ++
          expHash ++ "\nproduced: " ++ hash)

/-- Error decision of the first loop of `checkDeltaPack` (part_000 lines
280-299): scanning entries at the header version that are present, the first
staged file that is readable but hashes differently aborts with an error;
unreadable staged files are only recorded for the delta phase (see
`deltaTosOf`), and matching ones pass. -/
def stagedScan (env : Env) (dir mName : String) (hdrVer : Nat) :
    List swupd.File → Option String
  | [] => none
  | f :: rest =>
    if f.Version != hdrVer then stagedScan env dir mName hdrVer rest
    else if !f.Present then stagedScan env dir mName hdrVer rest
    else
      match env.hashcalc (joinP (joinP dir "staged") f.Hash) with
      | none => stagedScan env dir mName hdrVer rest
      | some hash =>
        if hash == f.Hash then stagedScan env dir mName hdrVer rest
        else
          some (joinP (joinP dir "staged") f.Hash ++ " hash did not match hash listed in " ++
            mName ++ " for " ++ f.Name)

/-- Key set of the `deltaTos` map built by the first loop of `checkDeltaPack`
(part_000 lines 279-293): the hashes of present entries at the header version
whose staged copy cannot be read, each hash once, in first-insertion order. -/
def deltaTosOf (env : Env) (dir : String) (hdrVer : Nat) :
    List swupd.File → List String
  | [] => []
  | f :: rest =>
    if f.Version != hdrVer then deltaTosOf env dir hdrVer rest
    else if !f.Present then deltaTosOf env dir hdrVer rest
    else
      match env.hashcalc (joinP (joinP dir "staged") f.Hash) with
      | none => f.Hash :: ((deltaTosOf env dir hdrVer rest).filter (fun h => h ≠ f.Hash))
      | some _ => deltaTosOf env dir hdrVer rest

/-- Insertion into the `deltaNames` map modelled as an association list:
an existing binding of the key is overwritten in place, a new key is
appended. -/
def insertAssoc : List (String × String) → String → String → List (String × String)
  | [], k, v => [(k, v)]
  | (k0, v0) :: t, k, v =>
    if k0 = k then (k, v) :: t else (k0, v0) :: insertAssoc t k v

/-- The `deltaNames` map of `checkDeltaPack` (part_000 lines 301-313): every
directory entry whose name splits on dashes into exactly four fields is
recorded under its fourth field (the target hash); later entries overwrite
earlier ones, as in a Go map. -/
def buildDeltaNames (ds : List String) : List (String × String) :=
  ds.foldl
    (fun acc d =>
      let fs := splitDash d
      if fs.length = 4 then insertAssoc acc (fs.getD 3 "") d else acc)
    []

/-- Lookup in the association-list model of a Go map. -/
def lookupAssoc : List (String × String) → String → Option String
  | [], _ => none
  | (k, v) :: t, h => if k = h then some v else lookupAssoc t h

/-- Third loop of `checkDeltaPack` (part_000 lines 315-335): for each target
hash needing a delta, find its delta file, fetch the source content named by
the first and third filename fields, and run `checkSingleDelta`; the first
failure aborts with its error.  Go iterates the `deltaTos` map in unspecified
order; first-insertion order is used here (success and failure of the whole
loop do not depend on the order).  The filenames come from `ReadDir`, so
`filepath.Base` is the identity on them. -/
def checkDeltas (env : Env) (c : Config) (dir : String)
    (names : List (String × String)) : List String → Option String
  | [] => none
  | h :: rest =>
    match lookupAssoc names h with
    | none => some ("could not find " ++ h ++ " in delta pack at " ++ dir)
    | some val =>
      let fields := splitDash val
      let fromV := fields.getD 0 ""
      let fromH := fields.getD 2 ""
      let url := c.UpstreamURL ++ "/update/" ++ fromV ++ "/files/" ++ fromH ++ ".tar"
      let fromF := joinP dir fromH
      if !env.tarExtractOK url fromF then some ("TarExtractURL " ++ url)
      else
        match checkSingleDelta env (joinP (joinP dir "delta") val) fromF h with
        | some e => some e
        | none => checkDeltas env c dir names rest

/-- Embedding of `checkDeltaPack` (part_000 lines 278-337).  The single Go
loop over `m.Files` both decides the staged-mismatch error and builds the
`deltaTos` map; since map building has no effect on the error decision, it is
split here into `stagedScan` (the error) and `deltaTosOf` (the keys), which
together are observationally the Go loop. -/
def checkDeltaPack (env : Env) (c : Config) (dir : String) (m : swupd.Manifest) :
    Option String :=
  match stagedScan env dir m.Name m.Header.Version m.Files with
  | some e => some e
  | none =>
    match env.readDir (joinP dir "delta") with
    | none => some ("ReadDir " ++ joinP dir "delta")
    | some ds =>
      checkDeltas env c dir (buildDeltaNames ds)
        (deltaTosOf env dir m.Header.Version m.Files)

/-- The `vers` set of `CheckDeltaPacks` (part_000 lines 344-348): the distinct
versions appearing in file entries, in first-insertion order (Go iterates the
map in unspecified order; nothing below depends on it). -/
def versOf : List swupd.File → List Nat
  | [] => []
  | f :: rest => f.Version :: ((versOf rest).filter (fun v => v ≠ f.Version))

/-- Worker loop of `CheckDeltaPacks` (part_000 lines 357-385), determinized to
first-insertion order of the version set.  Per candidate from-version: a
`TempDir` error is sent to the error channel; a failed fetch of
`pack-<bundle>-from-<v>.tar` is treated as "no delta pack exists from this
version" and skipped with no record; a `checkDeltaPack` error becomes one
failure string.  Every scratch directory is removed (explicitly on the
fetch-failure path, by the deferred `os.RemoveAll` on all others). -/
def CheckDeltaPacksFrom (env : Env) (c : Config) (m : swupd.Manifest) :
    List Nat → PackResult
  | [] => ⟨[], none, []⟩
  | v :: rest =>
    match env.tempDir ("check-delta-pack-" ++ m.Name ++ "-" ++ toString v ++ "-") with
    | none =>
      let res := CheckDeltaPacksFrom env c m rest
      ⟨res.fails, some "TempDir", res.leftover⟩
    | some tmpDir =>
      let url := c.UpstreamURL ++ "/update/" ++ toString m.Header.Version ++
        "/pack-" ++ m.Name ++ "-from-" ++ toString v ++ ".tar"
      if !env.tarExtractOK url (joinP tmpDir (toString v)) then
        CheckDeltaPacksFrom env c m rest
      else
        match checkDeltaPack env c tmpDir m with
        | some e =>
          let res := CheckDeltaPacksFrom env c m rest
          ⟨e :: res.fails, res.err, res.leftover⟩
        | none => CheckDeltaPacksFrom env c m rest

/-- Embedding of `CheckDeltaPacks` (part_000 lines 343-416). -/
def CheckDeltaPacks (env : Env) (c : Config) (m : swupd.Manifest) : PackResult :=
  CheckDeltaPacksFrom env c m (versOf m.Files)

/-- Worker body of `CheckPacks` (part_000 lines 434-467) for one MoM entry:
parse the bundle manifest, run the delta or zero pack check, and either
forward the error or record the aggregate `r.Ok` outcome plus a diagnostic
listing the pack issues. -/
def CheckPacksBundle (env : Env) (c : Config) (minVer : Nat) (delta : Bool)
    (b : swupd.File) : Stage :=
  if b.Version < minVer then Stage.empty
  else
    match env.parseManifest (manPath c b) with
    | none => ⟨[], [], some ("ParseManifestFile " ++ manPath c b)⟩
    | some m =>
      let pr := if delta then CheckDeltaPacks env c m else CheckZeroPack env c m
      let desc := if delta then "delta pack content correct for " ++ m.Name
        else "zero pack content correct for " ++ m.Name
      match pr.err with
      | some e => ⟨[], [], some e⟩
      | none =>
        ⟨[(pr.fails.isEmpty, desc)],
          if pr.fails.isEmpty then []
          else ["pack issues:\n" ++ String.intercalate "\n" pr.fails],
          none⟩

/-- Producer loop of `CheckPacks` (part_000 lines 469-476): each MoM entry is
offered once through the `select`. -/
def CheckPacksLoop (env : Env) (c : Config) (minVer : Nat) (delta : Bool) :
    List swupd.File → Stage
  | [] => Stage.empty
  | b :: rest =>
    (CheckPacksBundle env c minVer delta b).seq (CheckPacksLoop env c minVer delta rest)

/-- Embedding of `CheckPacks` (part_000 lines 420-490). -/
def CheckPacks (env : Env) (c : Config) (version minVer : Nat) (delta : Bool) : Stage :=
  match env.parseManifest (momPath c version) with
  | none => ⟨[], [], some ("ParseManifestFile " ++ momPath c version)⟩
  | some MoM => CheckPacksLoop env c minVer delta MoM.Files

end UC

namespace cmd

/-- Embedding of `UCCheck` (src/unnamed/part_013 lines 82-104): run the four
stages in order, returning immediately with the partially filled results when
a stage reports an error. -/
def UCCheck (env : Env) (c : Config) (version minVer : Nat) : Stage :=
  let s1 := UC.CheckManifestHashes env c version minVer
  match s1.2 with
  | some e => ⟨s1.1, [], some e⟩
  | none =>
    let s2 := UC.CheckFileHashes env c version minVer
    match s2.err with
    | some e => ⟨s1.1 ++ s2.oks, s2.diags, some e⟩
    | none =>
      let s3 := UC.CheckPacks env c version minVer true
      match s3.err with
      | some e => ⟨s1.1 ++ s2.oks ++ s3.oks, s2.diags ++ s3.diags, some e⟩
      | none =>
        let s4 := UC.CheckPacks env c version minVer false
        ⟨s1.1 ++ s2.oks ++ s3.oks ++ s4.oks, s2.diags ++ s3.diags ++ s4.diags, s4.err⟩

/-- Floor selection of `UCCheck` (src/cmd/updatecontent.go lines 79-88): the
`UInfo` is zero-valued and `u.MinVer = version` is assigned only when the
recursive flag is not set. -/
def UCCheckMinVer (version : Nat) (recursive : Bool) : Nat :=
  if !recursive then version else 0

end cmd

namespace UC2

/-!
Embedding of the second updatecontent variant in src/unnamed/part_000 (the
error-list API), for the functions the claims compare against.
-/

/-- Embedding of `CheckZeroPack` (part_000 lines 699-723, error-list variant).
Its `checkBundleFileHashesPack` is the same function as in the first variant.
The deferred cleanup runs `os.RemoveAll(tmpDir)` only when `len(errs) == 0`,
so the scratch directory is left behind whenever any error was collected.
Returns the collected errors and the leftover scratch directories. -/
def CheckZeroPack (env : Env) (c : Config) (m : swupd.Manifest) :
    List String × List String :=
  match env.tempDir ("check-zero-pack-" ++ m.Name ++ "-" ++ toString m.Header.Version ++ "-") with
  | none => (["TempDir"], [])
  | some tmpDir =>
    let url := c.UpstreamURL ++ "/update/" ++ toString m.Header.Version ++
      "/pack-" ++ m.Name ++ "-from-0.tar"
    if env.tarExtractOK url (joinP tmpDir (toString m.Header.Version)) then
      let es := UC.checkBundleFileHashesPack env (joinP tmpDir "staged") m 0
      (es, if es.isEmpty then [] else [tmpDir])
    else (["TarExtractURL " ++ url], [tmpDir])

end UC2

namespace UCgo

/-!
Embedding of src/updatecontent/check.go (the sequential, single-error
variant).
-/

/-- Loop of `checkBundleFileHashesPack` (check.go lines 131-148): sequential,
returns the first error or mismatch; note this variant has no `Present()`
filter. -/
def checkBundleFileHashesPackLoop (env : Env) (filesLoc mName : String)
    (minVer : Nat) : List swupd.File → Option String
  | [] => none
  | f :: rest =>
    if f.Version < minVer then checkBundleFileHashesPackLoop env filesLoc mName minVer rest
    else
      match env.hashcalc (joinP filesLoc f.Hash) with
      | none => some ("Hashcalc " ++ joinP filesLoc f.Hash)
      | some hash =>
        if hash == f.Hash then checkBundleFileHashesPackLoop env filesLoc mName minVer rest
        else
          some (joinP filesLoc f.Hash ++ " hash did not match hash listed in " ++ mName ++
            " for " ++ f.Name)

/-- Embedding of `checkBundleFileHashesPack` (check.go lines 131-148). -/
def checkBundleFileHashesPack (env : Env) (filesLoc : String) (m : swupd.Manifest)
    (minVer : Nat) : Option String :=
  checkBundleFileHashesPackLoop env filesLoc m.Name minVer m.Files

/-- Embedding of `checkZeroPack` (check.go lines 150-163): create a scratch
directory (note the name pattern has no trailing dash in this variant), fetch
and extract the zero pack, then hash-check the `files` subdirectory.  This
variant contains no `os.RemoveAll` at all, so the scratch directory is left
behind on every path after its creation.  Returns the error and the leftover
scratch directories. -/
def checkZeroPack (env : Env) (c : Config) (m : swupd.Manifest) :
    Option String × List String :=
  match env.tempDir ("check-zero-pack-" ++ m.Name ++ "-" ++ toString m.Header.Version) with
  | none => (some "TempDir", [])
  | some tmpDir =>
    let url := c.UpstreamURL ++ "/update/" ++ toString m.Header.Version ++
      "/pack-" ++ m.Name ++ "-from-0.tar"
    if env.tarExtractOK url tmpDir then
      (checkBundleFileHashesPack env (joinP tmpDir "files") m 0, [tmpDir])
    else (some ("TarExtractURL " ++ url), [tmpDir])

/-- Loop of `CheckZeroPacks` (check.go lines 175-189): for each MoM entry at
or above the floor, parse the bundle manifest (an error is returned), then
run `checkZeroPack`; on a `checkZeroPack` error the Go code executes
`return nil`, discarding the error and skipping the remaining entries. -/
def CheckZeroPacksLoop (env : Env) (c : Config) (minVer : Nat) :
    List swupd.File → Option String
  | [] => none
  | b :: rest =>
    if b.Version < minVer then CheckZeroPacksLoop env c minVer rest
    else
      match env.parseManifest (UC.manPath c b) with
      | none => some ("ParseManifestFile " ++ UC.manPath c b)
      | some m =>
        match (checkZeroPack env c m).1 with
        | some _ => none
        | none => CheckZeroPacksLoop env c minVer rest

/-- Embedding of `CheckZeroPacks` (check.go lines 167-192). -/
def CheckZeroPacks (env : Env) (c : Config) (version minVer : Nat) : Option String :=
  match env.parseManifest (UC.momPath c version) with
  | none => some ("ParseManifestFile " ++ UC.momPath c version)
  | some MoM => CheckZeroPacksLoop env c minVer MoM.Files

end UCgo

namespace pkginfo

/-- State of the `ManifestInfo` fields that `updateManifestInfo` writes.  The
zero value has `MinVer = 0` (from `defaultManifestInfo`). -/
structure ManifestInfoState where
  Version : String
  UintVer : Nat
  MinVer : Nat
deriving DecidableEq, Repr

/-- Version/floor logic of `updateManifestInfo` (src/pkginfo/types.go lines
223-243): parse `Version` with `strconv.Atoi` (an error is returned), store it
as `UintVer`, and set `MinVer` to it exactly when the recursive flag is not
passed.  The `updateBundleInfo` call is elided: it touches no field modelled
here. -/
def updateManifestInfo (mi : ManifestInfoState) (recursive : Bool) :
    Option ManifestInfoState :=
  match atoiNat mi.Version with
  | none => none
  | some mv =>
    some
      { mi with
        UintVer := mv
        MinVer := if !recursive then mv else mi.MinVer }

end pkginfo

namespace divaU

/-- Embedding of `diva.UInfo` (src/unnamed/part_008 lines 35-41). -/
structure UInfo where
  Ver : String
  MinVer : Nat
  URL : String
  CacheLoc : String
  Update : Bool
deriving DecidableEq, Repr

/-- Embedding of `GetUpstreamInfo` (src/unnamed/part_008 lines 44-86).
`latestBody` models the body read from `<URL>/latest` (`none` is an HTTP or
read error).  When an explicit version is passed the function returns early
("no need to continue") and the recursive/floor logic below is never
reached, leaving `MinVer` at its zero value. -/
def GetUpstreamInfo (latestBody : Option String) (conf : Config)
    (upstreamURL version : String) (recursive update : Bool) : Option UInfo :=
  let u : UInfo :=
    { Ver := ""
      MinVer := 0
      URL := if upstreamURL = "" then conf.UpstreamURL else upstreamURL
      CacheLoc := conf.CacheLocation
      Update := update }
  if version ≠ "" then some { u with Ver := version }
  else
    match latestBody with
    | none => none
    | some body =>
      let ver := trimNewline body
      let u := { u with Ver := ver }
      if !recursive then
        match atoiNat ver with
        | none => none
        | some mv => some { u with MinVer := mv }
      else some u

end divaU

/-- Transcription of the per-entry success condition asserted by the
specification for delta-pack verification (claim C1): either the full copy in
the staged area hashes to the recorded hash of the entry, or a delta file
named `fromVersion-toVersion-fromHash-toHash` with the target hash of the
entry exists in the delta area and applying bspatch to the source content
fetched at (fromVersion, fromHash) yields content hashing to the target
hash.  Stated over the same environment as `UC.checkDeltaPack`, reusing its
fetch and patch call shapes. -/
def deltaEntryClaimOK (env : Env) (c : Config) (dir : String) (f : swupd.File) : Bool :=
  (env.hashcalc (joinP (joinP dir "staged") f.Hash) == some f.Hash) ||
    ((env.readDir (joinP dir "delta")).getD []).any (fun d =>
      let fs := splitDash d
      fs.length == 4 && fs.getD 3 "" == f.Hash &&
        (env.tarExtractOK
            (c.UpstreamURL ++ "/update/" ++ fs.getD 0 "" ++ "/files/" ++ fs.getD 2 "" ++ ".tar")
            (joinP dir (fs.getD 2 "")) &&
          (UC.checkSingleDelta env (joinP (joinP dir "delta") d)
              (joinP dir (fs.getD 2 "")) f.Hash == none)))

/-- Transcription of claim C1 as a whole: delta-pack verification of `m`
succeeds exactly when every present entry at the header version satisfies
`deltaEntryClaimOK`. -/
def checkDeltaPackClaim (env : Env) (c : Config) (dir : String) (m : swupd.Manifest) : Prop :=
  (UC.checkDeltaPack env c dir m = none) ↔
    (m.Files.all (fun f =>
      if f.Version == m.Header.Version && f.Present then deltaEntryClaimOK env c dir f
      else true)) = true

/-- Success condition for one target hash in the delta phase of
`UC.checkDeltaPack`: its hash is bound in the `deltaNames` map, the source
content named by the delta filename fetches, and `checkSingleDelta` passes. -/
def deltaHashOK (env : Env) (c : Config) (dir : String)
    (names : List (String × String)) (h : String) : Bool :=
  match UC.lookupAssoc names h with
  | none => false
  | some val =>
    let fields := splitDash val
    let fromV := fields.getD 0 ""
    let fromH := fields.getD 2 ""
    env.tarExtractOK (c.UpstreamURL ++ "/update/" ++ fromV ++ "/files/" ++ fromH ++ ".tar")
        (joinP dir fromH) &&
      (UC.checkSingleDelta env (joinP (joinP dir "delta") val) (joinP dir fromH) h
        == none)

/-- Actual per-entry success condition of `UC.checkDeltaPack`, read off the
code: a readable staged copy must hash to the recorded hash of the entry
(with no fallback to deltas), and an unreadable one requires its hash to pass
the delta phase (`deltaHashOK`). -/
def goodDeltaEntry (env : Env) (c : Config) (dir : String) (ds : List String)
    (f : swupd.File) : Bool :=
  match env.hashcalc (joinP (joinP dir "staged") f.Hash) with
  | some h => h == f.Hash
  | none => deltaHashOK env c dir (UC.buildDeltaNames ds) f.Hash

/-!
Concrete inputs used by the closed theorems below.
-/

/-- Test configuration: upstream URL `U`, cache location `C`. -/
def cT : Config := ⟨"U", "C"⟩

/-- Manifest for the delta-pack scenario: bundle `b` at version 10 with one
present entry `f1` of hash `h1`. -/
def mA : swupd.Manifest := ⟨"b", ⟨10⟩, [⟨"f1", 10, "h1", true⟩]⟩

/-- Environment for the delta-pack scenario: the staged copy of `h1` is
readable but hashes to `hX`, while the delta area holds `5-10-h0-h1`, whose
source fetches and whose patched output hashes to `h1` (a working delta). -/
def envA : Env :=
  { hashcalc := fun p =>
      if p = "T/staged/h1" then some "hX"
      else if p = "T/h0.test" then some "h1"
      else none
    parseManifest := fun _ => none
    readDir := fun p => if p = "T/delta" then some ["5-10-h0-h1"] else none
    tarExtractOK := fun _ _ => true
    bspatchOK := fun _ _ _ => true
    tempDir := fun _ => none }

/-- MoM for the bundle scenarios: one entry, bundle `a` at version 10 whose
manifest hash is recorded as `mh`. -/
def MoMC : swupd.Manifest := ⟨"MoM", ⟨10⟩, [⟨"a", 10, "mh", true⟩]⟩

/-- Bundle manifest `a` at version 10 with one present entry `f1`/`h1`. -/
def mC : swupd.Manifest := ⟨"a", ⟨10⟩, [⟨"f1", 10, "h1", true⟩]⟩

/-- Environment where everything is in place: the manifest of bundle `a`
hashes to `mh` as recorded in the MoM, and the blob of `f1` hashes to `h1`. -/
def envC : Env :=
  { hashcalc := fun p =>
      if p = "C/update/10/Manifest.a" then some "mh"
      else if p = "C/update/10/files/h1" then some "h1"
      else none
    parseManifest := fun p =>
      if p = "C/update/10/Manifest.MoM" then some MoMC
      else if p = "C/update/10/Manifest.a" then some mC
      else none
    readDir := fun _ => none
    tarExtractOK := fun _ _ => true
    bspatchOK := fun _ _ _ => true
    tempDir := fun _ => some "tmp" }

/-- Environment like `envC` except that the blob of `f1` is absent: only the
manifest of bundle `a` can be hashed. -/
def envD : Env :=
  { hashcalc := fun p => if p = "C/update/10/Manifest.a" then some "mh" else none
    parseManifest := fun p =>
      if p = "C/update/10/Manifest.MoM" then some MoMC
      else if p = "C/update/10/Manifest.a" then some mC
      else none
    readDir := fun _ => none
    tarExtractOK := fun _ _ => true
    bspatchOK := fun _ _ _ => true
    tempDir := fun _ => some "tmp" }

/-- Environment where every archive fetch fails (and scratch directories are
created as `tmp`): used for the zero-pack and delta-pack fetch-failure
scenarios. -/
def envB : Env :=
  { hashcalc := fun _ => none
    parseManifest := fun p =>
      if p = "C/update/10/Manifest.MoM" then some MoMC
      else if p = "C/update/10/Manifest.a" then some mC
      else none
    readDir := fun _ => none
    tarExtractOK := fun _ _ => false
    bspatchOK := fun _ _ _ => false
    tempDir := fun _ => some "tmp" }

/-!
Theorems.
-/

/-- Per-hash step of the delta phase: the loop succeeds on `h :: rest`
exactly when `h` passes `deltaHashOK` and the loop succeeds on `rest`. -/
theorem checkDeltas_cons_none_iff (env : Env) (c : Config) (dir : String)
    (names : List (String × String)) (h : String) (rest : List String) :
    UC.checkDeltas env c dir names (h :: rest) = none ↔
      (deltaHashOK env c dir names h = true ∧
        UC.checkDeltas env c dir names rest = none) := by
  cases hl : UC.lookupAssoc names h with
  | none => simp [UC.checkDeltas, deltaHashOK, hl]
  | some val =>
    cases htar : env.tarExtractOK
        (c.UpstreamURL ++ "/update/" ++ (splitDash val).getD 0 "" ++ "/files/" ++
          (splitDash val).getD 2 "" ++ ".tar")
        (joinP dir ((splitDash val).getD 2 "")) with
    | false =>
      simp only [UC.checkDeltas, deltaHashOK, hl]
      rw [htar]
      simp
    | true =>
      cases hcs : UC.checkSingleDelta env (joinP (joinP dir "delta") val)
          (joinP dir ((splitDash val).getD 2 "")) h with
      | some e =>
        simp only [UC.checkDeltas, deltaHashOK, hl]
        rw [htar, hcs]
        simp
      | none =>
        simp only [UC.checkDeltas, deltaHashOK, hl]
        rw [htar, hcs]
        simp

/-- The delta phase succeeds exactly when every collected target hash passes
`deltaHashOK`. -/
theorem checkDeltas_none_iff (env : Env) (c : Config) (dir : String)
    (names : List (String × String)) (l : List String) :
    UC.checkDeltas env c dir names l = none ↔
      ∀ h ∈ l, deltaHashOK env c dir names h = true := by
  induction l with
  | nil => simp [UC.checkDeltas]
  | cons h rest ih => rw [checkDeltas_cons_none_iff]; simp [ih]

/-- The staged scan succeeds exactly when every readable staged copy of a
present entry at the header version hashes to the recorded hash. -/
theorem stagedScan_none_iff (env : Env) (dir mName : String) (hdrVer : Nat)
    (files : List swupd.File) :
    UC.stagedScan env dir mName hdrVer files = none ↔
      ∀ f ∈ files, f.Version = hdrVer → f.Present = true →
        ∀ h, env.hashcalc (joinP (joinP dir "staged") f.Hash) = some h →
          h = f.Hash := by
  induction files with
  | nil => simp [UC.stagedScan]
  | cons f rest ih =>
    by_cases hv : f.Version = hdrVer
    · have hb : (f.Version != hdrVer) = false := by simp [hv]
      cases hp : f.Present with
      | false =>
        simp only [UC.stagedScan, hb, Bool.false_eq_true, if_false, hp, Bool.not_false,
          if_true]
        rw [ih]
        constructor
        · intro hall g hg hgv hgp
          rcases List.mem_cons.mp hg with rfl | hmem
          · intro h hgh
            rw [hp] at hgp
            cases hgp
          · exact hall g hmem hgv hgp
        · intro hall g hg hgv hgp
          exact hall g (List.mem_cons_of_mem _ hg) hgv hgp
      | true =>
        cases hh : env.hashcalc (joinP (joinP dir "staged") f.Hash) with
        | none =>
          simp only [UC.stagedScan, hb, Bool.false_eq_true, if_false, hp, Bool.not_true,
            hh]
          rw [ih]
          constructor
          · intro hall g hg hgv hgp
            rcases List.mem_cons.mp hg with rfl | hmem
            · intro h hgh
              rw [hh] at hgh
              cases hgh
            · exact hall g hmem hgv hgp
          · intro hall g hg hgv hgp
            exact hall g (List.mem_cons_of_mem _ hg) hgv hgp
        | some h0 =>
          cases heq : (h0 == f.Hash) with
          | false =>
            have hne : ¬ h0 = f.Hash := by simpa using heq
            simp only [UC.stagedScan, hb, Bool.false_eq_true, if_false, hp, Bool.not_true,
              hh, heq]
            constructor
            · intro hcon
              cases hcon
            · intro hall
              exact absurd (hall f (List.mem_cons_self f rest) hv hp h0 hh) hne
          | true =>
            have h0eq : h0 = f.Hash := by simpa using heq
            simp only [UC.stagedScan, hb, Bool.false_eq_true, if_false, hp, Bool.not_true,
              hh, heq, if_true]
            rw [ih]
            constructor
            · intro hall g hg hgv hgp h hgh
              rcases List.mem_cons.mp hg with rfl | hmem
              · rw [hh] at hgh
                injection hgh with hinj
                rw [← hinj]
                exact h0eq
              · exact hall g hmem hgv hgp h hgh
            · intro hall g hg hgv hgp h hgh
              exact hall g (List.mem_cons_of_mem _ hg) hgv hgp h hgh
    · have hb : (f.Version != hdrVer) = true := by simpa using hv
      simp only [UC.stagedScan, hb, if_true]
      rw [ih]
      constructor
      · intro hall g hg hgv hgp
        rcases List.mem_cons.mp hg with rfl | hmem
        · exact absurd hgv hv
        · exact hall g hmem hgv hgp
      · intro hall g hg hgv hgp
        exact hall g (List.mem_cons_of_mem _ hg) hgv hgp

/-- Membership in the collected `deltaTos` key set: exactly the hashes of
present entries at the header version whose staged copy is unreadable. -/
theorem mem_deltaTosOf (env : Env) (dir : String) (hdrVer : Nat)
    (files : List swupd.File) (h : String) :
    h ∈ UC.deltaTosOf env dir hdrVer files ↔
      ∃ f, f ∈ files ∧ f.Version = hdrVer ∧ f.Present = true ∧
        env.hashcalc (joinP (joinP dir "staged") f.Hash) = none ∧ f.Hash = h := by
  induction files with
  | nil => simp [UC.deltaTosOf]
  | cons f rest ih =>
    by_cases hv : f.Version = hdrVer
    · have hb : (f.Version != hdrVer) = false := by simp [hv]
      cases hp : f.Present with
      | false =>
        simp only [UC.deltaTosOf, hb, Bool.false_eq_true, if_false, hp, Bool.not_false,
          if_true]
        rw [ih]
        constructor
        · rintro ⟨g, hg, hrest⟩
          exact ⟨g, List.mem_cons_of_mem _ hg, hrest⟩
        · rintro ⟨g, hg, hgv, hgp, hgh, hghash⟩
          rcases List.mem_cons.mp hg with rfl | hmem
          · rw [hp] at hgp
            cases hgp
          · exact ⟨g, hmem, hgv, hgp, hgh, hghash⟩
      | true =>
        cases hh : env.hashcalc (joinP (joinP dir "staged") f.Hash) with
        | some h0 =>
          simp only [UC.deltaTosOf, hb, Bool.false_eq_true, if_false, hp, Bool.not_true,
            hh]
          rw [ih]
          constructor
          · rintro ⟨g, hg, hrest⟩
            exact ⟨g, List.mem_cons_of_mem _ hg, hrest⟩
          · rintro ⟨g, hg, hgv, hgp, hgh, hghash⟩
            rcases List.mem_cons.mp hg with rfl | hmem
            · rw [hh] at hgh
              cases hgh
            · exact ⟨g, hmem, hgv, hgp, hgh, hghash⟩
        | none =>
          simp only [UC.deltaTosOf, hb, Bool.false_eq_true, if_false, hp, Bool.not_true,
            hh]
          constructor
          · intro hmem
            rcases List.mem_cons.mp hmem with rfl | hmemf
            · exact ⟨f, List.mem_cons_self f rest, hv, hp, hh, rfl⟩
            · have hmem2 := (List.mem_filter.mp hmemf).1
              rcases ih.mp hmem2 with ⟨g, hg, hgv, hgp, hgh, hghash⟩
              exact ⟨g, List.mem_cons_of_mem _ hg, hgv, hgp, hgh, hghash⟩
          · rintro ⟨g, hg, hgv, hgp, hgh, hghash⟩
            rcases List.mem_cons.mp hg with rfl | hmem
            · rw [← hghash]
              exact List.mem_cons_self _ _
            · by_cases hfh : h = f.Hash
              · rw [hfh]
                exact List.mem_cons_self _ _
              · apply List.mem_cons_of_mem
                apply List.mem_filter.mpr
                exact ⟨ih.mpr ⟨g, hmem, hgv, hgp, hgh, hghash⟩, by simpa using hfh⟩
    · have hb : (f.Version != hdrVer) = true := by simpa using hv
      simp only [UC.deltaTosOf, hb, if_true]
      rw [ih]
      constructor
      · rintro ⟨g, hg, hrest⟩
        exact ⟨g, List.mem_cons_of_mem _ hg, hrest⟩
      · rintro ⟨g, hg, hgv, hgp, hgh, hghash⟩
        rcases List.mem_cons.mp hg with rfl | hmem
        · exact absurd hgv hv
        · exact ⟨g, hmem, hgv, hgp, hgh, hghash⟩

/-- Claim C1, amended to the code: delta-pack verification of a manifest
succeeds iff the delta directory of the pack is readable and every present
file entry at the header version of the manifest satisfies the per-entry
condition `goodDeltaEntry`: a readable staged copy must itself hash to the
recorded hash of the entry (a readable staged copy with a wrong hash is a
failure even when a working delta exists), and an unreadable staged copy
requires a delta bound to the target hash of the entry whose source fetches
and whose patched output hashes to the target hash. -/
theorem checkDeltaPack_none_iff (env : Env) (c : Config) (dir : String)
    (m : swupd.Manifest) :
    UC.checkDeltaPack env c dir m = none ↔
      (env.readDir (joinP dir "delta")).isSome = true ∧
      ∀ f ∈ m.Files, f.Version = m.Header.Version → f.Present = true →
        goodDeltaEntry env c dir ((env.readDir (joinP dir "delta")).getD []) f = true := by
  simp only [UC.checkDeltaPack]
  cases hss : UC.stagedScan env dir m.Name m.Header.Version m.Files with
  | some e =>
    simp only []
    constructor
    · intro hcon; exact absurd hcon (by simp)
    · rintro ⟨-, hall⟩
      exfalso
      have hne : ¬ (UC.stagedScan env dir m.Name m.Header.Version m.Files = none) := by
        rw [hss]; simp
      rw [stagedScan_none_iff] at hne
      push_neg at hne
      rcases hne with ⟨f, hf, hfv, hfp, h0, hh0, hneq⟩
      have hgood := hall f hf hfv hfp
      rw [goodDeltaEntry, hh0] at hgood
      exact hneq (by simpa using hgood)
  | none =>
    have hsall := (stagedScan_none_iff env dir m.Name m.Header.Version m.Files).mp hss
    cases hrd : env.readDir (joinP dir "delta") with
    | none => simp
    | some ds =>
      simp only [Option.isSome_some, Option.getD_some, true_and]
      rw [checkDeltas_none_iff]
      constructor
      · intro hd f hf hfv hfp
        rw [goodDeltaEntry]
        cases hh : env.hashcalc (joinP (joinP dir "staged") f.Hash) with
        | some h0 => simpa using hsall f hf hfv hfp h0 hh
        | none =>
          exact hd f.Hash ((mem_deltaTosOf env dir m.Header.Version m.Files f.Hash).mpr
            ⟨f, hf, hfv, hfp, hh, rfl⟩)
      · intro hg h hmem
        rcases (mem_deltaTosOf env dir m.Header.Version m.Files h).mp hmem with
          ⟨f, hf, hfv, hfp, hh, hfh⟩
        have hgood := hg f hf hfv hfp
        rw [goodDeltaEntry, hh] at hgood
        rw [← hfh]
        exact hgood

/-- Claim C1 as stated is false: in the scenario `envA`/`mA` the staged copy
of the only entry is readable but hashes wrongly while a working delta for
its target hash exists, so the specified disjunction holds for every entry,
yet `checkDeltaPack` reports a failure. -/
theorem checkDeltaPack_claim_counterexample : ¬ checkDeltaPackClaim envA cT "T" mA := by
  rw [checkDeltaPackClaim]
  decide

/-- The MoM loop of `CheckManifestHashes`, evaluated when every eligible
entry can be hashed: one outcome per entry at or above the floor, in order,
passing exactly when the computed hash equals the recorded one, and no
error. -/
theorem CheckManifestHashesLoop_eq (env : Env) (c : Config) (minVer : Nat)
    (files : List swupd.File)
    (hr : ∀ f ∈ files, minVer ≤ f.Version → (env.hashcalc (UC.manPath c f)).isSome = true) :
    UC.CheckManifestHashesLoop env c minVer files =
      ((files.filter (fun f => decide (minVer ≤ f.Version))).map
        (fun f => (env.hashcalc (UC.manPath c f) == some f.Hash,
          "Manifest." ++ f.Name ++ " hash matches hash in MoM")), none) := by
  induction files with
  | nil => simp [UC.CheckManifestHashesLoop]
  | cons f rest ih =>
    have ihr : ∀ g ∈ rest, minVer ≤ g.Version → (env.hashcalc (UC.manPath c g)).isSome = true :=
      fun g hg hgle => hr g (List.mem_cons_of_mem _ hg) hgle
    by_cases hle : minVer ≤ f.Version
    · have hnlt : ¬ (f.Version < minVer) := by omega
      obtain ⟨h0, hh0⟩ := Option.isSome_iff_exists.mp (hr f (List.mem_cons_self f rest) hle)
      simp only [UC.CheckManifestHashesLoop, if_neg hnlt, hh0]
      rw [ih ihr]
      simp [List.filter_cons, hle, hh0]
    · have hlt : f.Version < minVer := by omega
      simp only [UC.CheckManifestHashesLoop, if_pos hlt]
      rw [ih ihr]
      simp [List.filter_cons, hle]

/-- Error characterization of the MoM loop of `CheckManifestHashes`: it
returns an error exactly when some entry at or above the floor has an
unhashable manifest file. -/
theorem CheckManifestHashesLoop_err (env : Env) (c : Config) (minVer : Nat)
    (files : List swupd.File) :
    ((UC.CheckManifestHashesLoop env c minVer files).2).isSome = true ↔
      ∃ f ∈ files, minVer ≤ f.Version ∧ env.hashcalc (UC.manPath c f) = none := by
  induction files with
  | nil => simp [UC.CheckManifestHashesLoop]
  | cons f rest ih =>
    by_cases hlt : f.Version < minVer
    · simp only [UC.CheckManifestHashesLoop, if_pos hlt]
      rw [ih]
      constructor
      · rintro ⟨g, hg, hrest⟩
        exact ⟨g, List.mem_cons_of_mem _ hg, hrest⟩
      · rintro ⟨g, hg, hgle, hgh⟩
        rcases List.mem_cons.mp hg with rfl | hmem
        · omega
        · exact ⟨g, hmem, hgle, hgh⟩
    · have hle : minVer ≤ f.Version := by omega
      cases hh : env.hashcalc (UC.manPath c f) with
      | none =>
        simp only [UC.CheckManifestHashesLoop, if_neg hlt, hh]
        constructor
        · intro _
          exact ⟨f, List.mem_cons_self f rest, hle, hh⟩
        · intro _
          simp
      | some h0 =>
        simp only [UC.CheckManifestHashesLoop, if_neg hlt, hh]
        rw [ih]
        constructor
        · rintro ⟨g, hg, hrest⟩
          exact ⟨g, List.mem_cons_of_mem _ hg, hrest⟩
        · rintro ⟨g, hg, hgle, hgh⟩
          rcases List.mem_cons.mp hg with rfl | hmem
          · rw [hh] at hgh
            cases hgh
          · exact ⟨g, hmem, hgle, hgh⟩

/-- Claim C2: when the Root Index parses and every entry at or above the
floor has a hashable manifest file, the Manifest Index Verifier records
exactly one outcome per such entry (in index order), passing exactly when the
computed hash equals the recorded one; entries below the floor produce no
outcome, and no error is returned. -/
theorem CheckManifestHashes_per_entry (env : Env) (c : Config) (version minVer : Nat)
    (MoM : swupd.Manifest)
    (hM : env.parseManifest (UC.momPath c version) = some MoM)
    (hr : ∀ f ∈ MoM.Files, minVer ≤ f.Version →
      (env.hashcalc (UC.manPath c f)).isSome = true) :
    UC.CheckManifestHashes env c version minVer =
      ((MoM.Files.filter (fun f => decide (minVer ≤ f.Version))).map
        (fun f => (env.hashcalc (UC.manPath c f) == some f.Hash,
          "Manifest." ++ f.Name ++ " hash matches hash in MoM")), none) := by
  simp only [UC.CheckManifestHashes, hM]
  exact CheckManifestHashesLoop_eq env c minVer MoM.Files hr

/-- Witness for `CheckManifestHashes_per_entry` at the concrete scenario
`envC`: the MoM parses, the single entry is hashable, and the verifier
records its single passing outcome. -/
theorem CheckManifestHashes_per_entry_witness :
    UC.CheckManifestHashes envC cT 10 0 =
      ((MoMC.Files.filter (fun f => decide (0 ≤ f.Version))).map
        (fun f => (envC.hashcalc (UC.manPath cT f) == some f.Hash,
          "Manifest." ++ f.Name ++ " hash matches hash in MoM")), none) :=
  CheckManifestHashes_per_entry envC cT 10 0 MoMC (by decide) (by decide)

/-- Claim C8: the Manifest Index Verifier aborts with an error exactly when
the Root Index does not parse or some entry at or above the floor has an
unhashable (missing) manifest file; when the index parses and every eligible
entry is hashable, no error is returned and every eligible entry receives an
outcome even when its hash mismatches (mismatches are non-fatal and do not
stop the loop). -/
theorem CheckManifestHashes_error_policy (env : Env) (c : Config)
    (version minVer : Nat) :
    (((UC.CheckManifestHashes env c version minVer).2).isSome = true ↔
      env.parseManifest (UC.momPath c version) = none ∨
        ∃ MoM, env.parseManifest (UC.momPath c version) = some MoM ∧
          ∃ f ∈ MoM.Files, minVer ≤ f.Version ∧ env.hashcalc (UC.manPath c f) = none) ∧
    (∀ MoM, env.parseManifest (UC.momPath c version) = some MoM →
      (∀ f ∈ MoM.Files, minVer ≤ f.Version →
        (env.hashcalc (UC.manPath c f)).isSome = true) →
      (UC.CheckManifestHashes env c version minVer).2 = none ∧
      ((UC.CheckManifestHashes env c version minVer).1).length =
        (MoM.Files.filter (fun f => decide (minVer ≤ f.Version))).length) := by
  constructor
  · cases hM : env.parseManifest (UC.momPath c version) with
    | none => simp [UC.CheckManifestHashes, hM]
    | some MoM =>
      simp only [UC.CheckManifestHashes, hM]
      rw [CheckManifestHashesLoop_err]
      constructor
      · rintro ⟨f, hf, hfle, hfh⟩
        exact Or.inr ⟨MoM, rfl, f, hf, hfle, hfh⟩
      · rintro (hcon | ⟨MoM2, hM2, f, hf, hfle, hfh⟩)
        · cases hcon
        · injection hM2 with hMeq
          subst hMeq
          exact ⟨f, hf, hfle, hfh⟩
  · intro MoM hM hr
    simp only [UC.CheckManifestHashes, hM]
    rw [CheckManifestHashesLoop_eq env c minVer MoM.Files hr]
    simp

/-- Failure-list characterization of the blob loop when every eligible blob
is readable: the collected names are exactly the present entries at or above
the floor whose blob hashes differently, in manifest order, and no error is
returned — so one mismatch never suppresses the checks of the remaining
files. -/
theorem checkBundleFileHashesLoop_fails_eq (env : Env) (cacheLoc : String)
    (minVer : Nat) (files : List swupd.File)
    (hr : ∀ f ∈ files, f.Present = true → minVer ≤ f.Version →
      (env.hashcalc (UC.blobPath cacheLoc f)).isSome = true) :
    UC.checkBundleFileHashesLoop env cacheLoc minVer files =
      ((files.filter (fun f => f.Present && decide (minVer ≤ f.Version) &&
          !(env.hashcalc (UC.blobPath cacheLoc f) == some f.Hash))).map
        (fun f => f.Name), none) := by
  induction files with
  | nil => simp [UC.checkBundleFileHashesLoop]
  | cons f rest ih =>
    have ihr : ∀ g ∈ rest, g.Present = true → minVer ≤ g.Version →
        (env.hashcalc (UC.blobPath cacheLoc g)).isSome = true :=
      fun g hg => hr g (List.mem_cons_of_mem _ hg)
    cases hp : f.Present with
    | false =>
      simp only [UC.checkBundleFileHashesLoop, hp, Bool.not_false, if_true]
      rw [ih ihr]
      simp [List.filter_cons, hp]
    | true =>
      by_cases hlt : f.Version < minVer
      · have hnle : ¬ (minVer ≤ f.Version) := by omega
        simp only [UC.checkBundleFileHashesLoop, hp, Bool.not_true,
          Bool.false_eq_true, if_false, if_pos hlt]
        rw [ih ihr]
        simp [List.filter_cons, hp, hnle]
      · have hle : minVer ≤ f.Version := by omega
        obtain ⟨h0, hh0⟩ := Option.isSome_iff_exists.mp
          (hr f (List.mem_cons_self f rest) hp hle)
        simp only [UC.checkBundleFileHashesLoop, hp, Bool.not_true,
          Bool.false_eq_true, if_false, if_neg hlt, hh0]
        rw [ih ihr]
        cases heq : (h0 == f.Hash) with
        | true =>
          have : (some h0 == some f.Hash) = true := heq
          simp [List.filter_cons, hp, hle, hh0, heq, this]
        | false =>
          have : (some h0 == some f.Hash) = false := heq
          simp [List.filter_cons, hp, hle, hh0, heq, this]

/-- Claim C3 against the code: in the healthy scenario `envC` (one bundle,
every blob readable and matching) the File Blob Verifier records the
aggregate outcome for bundle `a` twice, because the producer loop of
`CheckFileHashes` sends each MoM entry twice (part_000 lines 163 and 165). -/
theorem CheckFileHashes_duplicate_outcome :
    UC.CheckFileHashes envC cT 10 0 =
      ⟨[(true, "file hashes for a bundle match hashes in manifest"),
        (true, "file hashes for a bundle match hashes in manifest")], [], none⟩ := by
  decide

/-- Claim C4 as stated is false at the concrete scenario `envD` (one bundle
whose only present entry has a missing blob): the run records no verification
failure for that entry — the only outcome is the passing manifest-hash check —
and instead returns the hash error, aborting before the pack stages. -/
theorem UCCheck_missing_blob_counterexample :
    cmd.UCCheck envD cT 10 0 =
      ⟨[(true, "Manifest.a hash matches hash in MoM")], [],
        some "Hashcalc C/update/10/files/h1"⟩ := by
  decide

/-- Helper for claim C4: a present entry at or above the floor whose blob
cannot be hashed makes the blob loop return an error. -/
theorem checkBundleFileHashesLoop_err_of_missing (env : Env) (cacheLoc : String)
    (minVer : Nat) (files : List swupd.File) (f : swupd.File)
    (hf : f ∈ files) (hp : f.Present = true) (hle : minVer ≤ f.Version)
    (hh : env.hashcalc (UC.blobPath cacheLoc f) = none) :
    ((UC.checkBundleFileHashesLoop env cacheLoc minVer files).2).isSome = true := by
  induction files with
  | nil => cases hf
  | cons g rest ih =>
    rcases List.mem_cons.mp hf with rfl | hmem
    · have hnlt : ¬ (f.Version < minVer) := by omega
      simp [UC.checkBundleFileHashesLoop, hp, if_neg hnlt, hh]
    · cases hgp : g.Present with
      | false =>
        simp only [UC.checkBundleFileHashesLoop, hgp, Bool.not_false, if_true]
        exact ih hmem
      | true =>
        by_cases hglt : g.Version < minVer
        · simp only [UC.checkBundleFileHashesLoop, hgp, Bool.not_true,
            Bool.false_eq_true, if_false, if_pos hglt]
          exact ih hmem
        · cases hgh : env.hashcalc (UC.blobPath cacheLoc g) with
          | none =>
            simp [UC.checkBundleFileHashesLoop, hgp, if_neg hglt, hgh]
          | some h0 =>
            simp only [UC.checkBundleFileHashesLoop, hgp, Bool.not_true,
              Bool.false_eq_true, if_false, if_neg hglt, hgh]
            exact ih hmem

/-- Claim C4, amended to the code: a present entry at or above the floor
whose blob is missing causes `checkBundleFileHashes` to return an error
rather than a per-entry failed check, and an error from the File Blob stage
makes `UCCheck` return immediately with the outcomes recorded so far — the
pack stages are skipped, so the verification run is aborted (without a
crash). -/
theorem UCCheck_missing_blob_aborts :
    (∀ (env : Env) (cacheLoc : String) (m : swupd.Manifest) (minVer : Nat)
      (f : swupd.File), f ∈ m.Files → f.Present = true → minVer ≤ f.Version →
      env.hashcalc (UC.blobPath cacheLoc f) = none →
      ((UC.checkBundleFileHashes env cacheLoc m minVer).2).isSome = true) ∧
    (∀ (env : Env) (c : Config) (version minVer : Nat) (e : String),
      (UC.CheckManifestHashes env c version minVer).2 = none →
      (UC.CheckFileHashes env c version minVer).err = some e →
      cmd.UCCheck env c version minVer =
        ⟨(UC.CheckManifestHashes env c version minVer).1 ++
            (UC.CheckFileHashes env c version minVer).oks,
          (UC.CheckFileHashes env c version minVer).diags, some e⟩) := by
  constructor
  · intro env cacheLoc m minVer f hf hp hle hh
    exact checkBundleFileHashesLoop_err_of_missing env cacheLoc minVer m.Files f hf hp hle hh
  · intro env c version minVer e h1 h2
    simp only [cmd.UCCheck, h1, h2]

/-- Witness for `UCCheck_missing_blob_aborts` at the concrete scenario
`envD`: the missing blob of `f1` yields a blob-stage error, and `UCCheck`
stops right after the File Blob stage. -/
theorem UCCheck_missing_blob_aborts_witness :
    ((UC.checkBundleFileHashes envD "C" mC 0).2).isSome = true ∧
    cmd.UCCheck envD cT 10 0 =
      ⟨(UC.CheckManifestHashes envD cT 10 0).1 ++ (UC.CheckFileHashes envD cT 10 0).oks,
        (UC.CheckFileHashes envD cT 10 0).diags, some "Hashcalc C/update/10/files/h1"⟩ :=
  ⟨UCCheck_missing_blob_aborts.1 envD "C" mC 0 ⟨"f1", 10, "h1", true⟩ (by decide)
      (by decide) (by decide) (by decide),
    UCCheck_missing_blob_aborts.2 envD cT 10 0 "Hashcalc C/update/10/files/h1"
      (by decide) (by decide)⟩

/-- Claim C5 against the code: in the scenario `envB` the zero-pack archive
of bundle `a` fails to fetch, yet `CheckZeroPacks` (check.go) returns a nil
error — the `return nil` at check.go line 187 discards the failure instead of
surfacing it. -/
theorem CheckZeroPacks_discards_fetch_failure :
    envB.tarExtractOK "U/update/10/pack-a-from-0.tar" "tmp" = false ∧
    UCgo.CheckZeroPacks envB cT 10 0 = none := by
  decide

/-- Claim C6: a candidate from-version whose delta-pack archive fails to
fetch or extract is skipped by the delta-pack worker loop with no recorded
failure, no error and no leftover scratch directory: the loop result is
exactly the result for the remaining from-versions. -/
theorem CheckDeltaPacksFrom_skips_failed_fetch (env : Env) (c : Config)
    (m : swupd.Manifest) (v : Nat) (d : String) (rest : List Nat)
    (h1 : env.tempDir ("check-delta-pack-" ++ m.Name ++ "-" ++ toString v ++ "-") = some d)
    (h2 : env.tarExtractOK
      (c.UpstreamURL ++ "/update/" ++ toString m.Header.Version ++ "/pack-" ++
        m.Name ++ "-from-" ++ toString v ++ ".tar")
      (joinP d (toString v)) = false) :
    UC.CheckDeltaPacksFrom env c m (v :: rest) = UC.CheckDeltaPacksFrom env c m rest := by
  simp only [UC.CheckDeltaPacksFrom, h1]
  rw [h2]
  simp

/-- Witness for `CheckDeltaPacksFrom_skips_failed_fetch` at the concrete
scenario `envB`: from-version 5 of bundle `a` fails to fetch and contributes
nothing. -/
theorem CheckDeltaPacksFrom_skips_failed_fetch_witness :
    UC.CheckDeltaPacksFrom envB cT mC [5] = UC.CheckDeltaPacksFrom envB cT mC [] :=
  CheckDeltaPacksFrom_skips_failed_fetch envB cT mC 5 "tmp" [] (by decide) (by decide)

/-- Claim C7 against the code: `GetUpstreamInfo` invoked with the explicit
version `100` and recursive off returns early and leaves the floor at 0,
while the sibling implementations (`updateManifestInfo` and the `UCCheck`
flag handling) set the floor to the requested version 100. -/
theorem GetUpstreamInfo_explicit_version_floor_zero :
    divaU.GetUpstreamInfo none cT "" "100" false false =
      some ⟨"100", 0, "U", "C", false⟩ ∧
    pkginfo.updateManifestInfo ⟨"100", 0, 0⟩ false = some ⟨"100", 100, 100⟩ ∧
    cmd.UCCheckMinVer 100 false = 100 := by
  decide

/-- Claim C9 as stated is false at the concrete scenario `envB`: the check.go
`checkZeroPack` creates the scratch directory `tmp` and leaves it behind when
it returns. -/
theorem checkZeroPack_leftover_counterexample :
    envB.tempDir "check-zero-pack-a-10" = some "tmp" ∧
    (UCgo.checkZeroPack envB cT mC).2 = ["tmp"] := by
  decide

/-- Claim C9, amended to the code: only the part_000 first-variant pack
checks remove their scratch directory on every exit path; the check.go
`checkZeroPack` never removes it, and the part_000 second-variant
`CheckZeroPack` removes it only when no error was collected. -/
theorem pack_scratch_cleanup_by_variant :
    (∀ (env : Env) (c : Config) (m : swupd.Manifest),
      (UC.CheckZeroPack env c m).leftover = []) ∧
    (∀ (env : Env) (c : Config) (m : swupd.Manifest) (vs : List Nat),
      (UC.CheckDeltaPacksFrom env c m vs).leftover = []) ∧
    (∀ (env : Env) (c : Config) (m : swupd.Manifest) (d : String),
      env.tempDir ("check-zero-pack-" ++ m.Name ++ "-" ++ toString m.Header.Version) = some d →
      (UCgo.checkZeroPack env c m).2 = [d]) ∧
    (∀ (env : Env) (c : Config) (m : swupd.Manifest) (d : String),
      env.tempDir ("check-zero-pack-" ++ m.Name ++ "-" ++ toString m.Header.Version ++ "-") =
        some d →
      (UC2.CheckZeroPack env c m).2 =
        (if ((UC2.CheckZeroPack env c m).1).isEmpty then [] else [d])) := by
  refine ⟨?_, ?_, ?_, ?_⟩
  · intro env c m
    simp only [UC.CheckZeroPack]
    cases htd : env.tempDir ("check-zero-pack-" ++ m.Name ++ "-" ++
        toString m.Header.Version ++ "-") with
    | none => rfl
    | some tmpDir =>
      cases htar : env.tarExtractOK
          (c.UpstreamURL ++ "/update/" ++ toString m.Header.Version ++ "/pack-" ++
            m.Name ++ "-from-0.tar")
          (joinP tmpDir (toString m.Header.Version)) with
      | false => simp [htar]
      | true => simp [htar]
  · intro env c m vs
    induction vs with
    | nil => rfl
    | cons v rest ih =>
      simp only [UC.CheckDeltaPacksFrom]
      cases htd : env.tempDir ("check-delta-pack-" ++ m.Name ++ "-" ++ toString v ++ "-") with
      | none => simpa using ih
      | some tmpDir =>
        cases htar : env.tarExtractOK
            (c.UpstreamURL ++ "/update/" ++ toString m.Header.Version ++ "/pack-" ++
              m.Name ++ "-from-" ++ toString v ++ ".tar")
            (joinP tmpDir (toString v)) with
        | false => simpa [htar] using ih
        | true =>
          cases hcd : UC.checkDeltaPack env c tmpDir m with
          | none => simpa [htar, hcd] using ih
          | some e => simpa [htar, hcd] using ih
  · intro env c m d htd
    simp only [UCgo.checkZeroPack, htd]
    cases htar : env.tarExtractOK
        (c.UpstreamURL ++ "/update/" ++ toString m.Header.Version ++ "/pack-" ++
          m.Name ++ "-from-0.tar") d with
    | false => simp [htar]
    | true => simp [htar]
  · intro env c m d htd
    simp only [UC2.CheckZeroPack, htd]
    cases htar : env.tarExtractOK
        (c.UpstreamURL ++ "/update/" ++ toString m.Header.Version ++ "/pack-" ++
          m.Name ++ "-from-0.tar")
        (joinP d (toString m.Header.Version)) with
    | false => simp [htar]
    | true => simp [htar]

/-- Witness for `pack_scratch_cleanup_by_variant` at the concrete scenario
`envB`. -/
theorem pack_scratch_cleanup_by_variant_witness :
    (UC.CheckZeroPack envB cT mC).leftover = [] ∧
    (UCgo.checkZeroPack envB cT mC).2 = ["tmp"] :=
  ⟨pack_scratch_cleanup_by_variant.1 envB cT mC,
    pack_scratch_cleanup_by_variant.2.2.1 envB cT mC "tmp" (by decide)⟩

/-- Error characterization of the part_000 per-manifest `CheckZeroPack`:
given a scratch directory, it returns an error exactly when the zero-pack
archive fails to fetch or extract (per-file hash problems go to the failure
list instead). -/
theorem CheckZeroPack_err_iff (env : Env) (c : Config) (m : swupd.Manifest)
    (d : String)
    (htd : env.tempDir ("check-zero-pack-" ++ m.Name ++ "-" ++
      toString m.Header.Version ++ "-") = some d) :
    (UC.CheckZeroPack env c m).err = none ↔
      env.tarExtractOK
        (c.UpstreamURL ++ "/update/" ++ toString m.Header.Version ++ "/pack-" ++
          m.Name ++ "-from-0.tar")
        (joinP d (toString m.Header.Version)) = true := by
  simp only [UC.CheckZeroPack, htd]
  cases htar : env.tarExtractOK
      (c.UpstreamURL ++ "/update/" ++ toString m.Header.Version ++ "/pack-" ++
        m.Name ++ "-from-0.tar")
      (joinP d (toString m.Header.Version)) with
  | false => simp [htar]
  | true => simp [htar]

/-- Helper for claim C10: one `Add` call preserves the counting invariant. -/
theorem Results_Add_inv (r : results.Results) (name desc : String)
    (err : Option String) (skipped : Bool)
    (h1 : r.Total = r.Passed + r.Failed + r.Skipped)
    (h2 : r.Total = r.Tests.length) :
    (results.Results.Add r name desc err skipped).Total =
        (results.Results.Add r name desc err skipped).Passed +
        (results.Results.Add r name desc err skipped).Failed +
        (results.Results.Add r name desc err skipped).Skipped ∧
      (results.Results.Add r name desc err skipped).Total =
        ((results.Results.Add r name desc err skipped).Tests).length := by
  cases skipped with
  | true => simp [results.Results.Add]; omega
  | false =>
    cases err with
    | none => simp [results.Results.Add]; omega
    | some e => simp [results.Results.Add]; omega

/-- Claim C10: every `Results.Add` call increments `Total` by one, appends
one `Result`, and increments exactly the counter matching the appended
status (`Skipped` when skipped, else `Failed` when an error is given, else
`Passed`); consequently, after any sequence of `Add` calls from a zero
`Results`, `Total = Passed + Failed + Skipped = length Tests`. -/
theorem Results_Add_spec :
    (∀ (r : results.Results) (name desc : String) (err : Option String) (skipped : Bool),
      (results.Results.Add r name desc err skipped).Total = r.Total + 1 ∧
      ((results.Results.Add r name desc err skipped).Tests).length = r.Tests.length + 1 ∧
      (skipped = true →
        (results.Results.Add r name desc err skipped).Skipped = r.Skipped + 1 ∧
        (results.Results.Add r name desc err skipped).Passed = r.Passed ∧
        (results.Results.Add r name desc err skipped).Failed = r.Failed ∧
        (((results.Results.Add r name desc err skipped).Tests).getLast?).map
          results.Result.Status = some results.PFS.Skip) ∧
      (skipped = false → err = none →
        (results.Results.Add r name desc err skipped).Passed = r.Passed + 1 ∧
        (results.Results.Add r name desc err skipped).Failed = r.Failed ∧
        (results.Results.Add r name desc err skipped).Skipped = r.Skipped ∧
        (((results.Results.Add r name desc err skipped).Tests).getLast?).map
          results.Result.Status = some results.PFS.Pass) ∧
      (skipped = false → ∀ e, err = some e →
        (results.Results.Add r name desc err skipped).Failed = r.Failed + 1 ∧
        (results.Results.Add r name desc err skipped).Passed = r.Passed ∧
        (results.Results.Add r name desc err skipped).Skipped = r.Skipped ∧
        (((results.Results.Add r name desc err skipped).Tests).getLast?).map
          results.Result.Status = some results.PFS.Fail)) ∧
    (∀ (name : String) (l : List results.AddArgs),
      (results.applyAdds (results.zeroResults name) l).Total =
          (results.applyAdds (results.zeroResults name) l).Passed +
          (results.applyAdds (results.zeroResults name) l).Failed +
          (results.applyAdds (results.zeroResults name) l).Skipped ∧
        (results.applyAdds (results.zeroResults name) l).Total =
          ((results.applyAdds (results.zeroResults name) l).Tests).length) := by
  constructor
  · intro r name desc err skipped
    refine ⟨?_, ?_, ?_, ?_, ?_⟩
    · cases skipped with
      | true => simp [results.Results.Add]
      | false => cases err <;> simp [results.Results.Add]
    · cases skipped with
      | true => simp [results.Results.Add]
      | false => cases err <;> simp [results.Results.Add]
    · intro hs
      subst hs
      simp [results.Results.Add, List.getLast?_concat]
    · intro hs he
      subst hs
      subst he
      simp [results.Results.Add, List.getLast?_concat]
    · intro hs e he
      subst hs
      subst he
      simp [results.Results.Add, List.getLast?_concat]
  · intro name l
    have hgen : ∀ (l : List results.AddArgs) (r : results.Results),
        r.Total = r.Passed + r.Failed + r.Skipped → r.Total = r.Tests.length →
        (results.applyAdds r l).Total =
            (results.applyAdds r l).Passed + (results.applyAdds r l).Failed +
            (results.applyAdds r l).Skipped ∧
          (results.applyAdds r l).Total = ((results.applyAdds r l).Tests).length := by
      intro l
      induction l with
      | nil => intro r h1 h2; exact ⟨h1, h2⟩
      | cons a rest ih =>
        intro r h1 h2
        have hstep := Results_Add_inv r a.name a.description a.err a.skipped h1 h2
        exact ih (results.Results.Add r a.name a.description a.err a.skipped) hstep.1 hstep.2
    exact hgen l (results.zeroResults name) rfl rfl

end Diva
